import Mathlib

/-!
Verification of the `hq` HTML query/extraction pipeline (`src/lib.rs`).

The core function `process_html` is shallowly embedded below.  External
collaborators that the spec declares out of scope (the HTML5 parser and CSS
selector engine, the `url` crate, the `link`/`pretty_print` modules, and the
`serde_json` parser/serializer) are abstracted into an `Ext` record of
functions, so every theorem quantifies over spec-compliant collaborators.
Everything that `src/lib.rs` itself implements — base-URL combination,
per-match pruning / rewriting / serialization dispatch, attribute extraction,
text serialization, the JSON control-character repair pass, and the two
compaction fallbacks — is translated directly from the source.
-/

/-- Unicode `White_Space` code points, as used by Rust's `char::is_whitespace`
(`str::trim`, `str::trim_start`). -/
def isRustWhitespace (c : Char) : Bool :=
  let n := c.toNat
  (0x9 ≤ n && n ≤ 0xD) || n = 0x20 || n = 0x85 || n = 0xA0 || n = 0x1680 ||
  (0x2000 ≤ n && n ≤ 0x200A) || n = 0x2028 || n = 0x2029 || n = 0x202F ||
  n = 0x205F || n = 0x3000

/-- Unicode `Cc` (control) code points, as used by Rust's `char::is_control`. -/
def isRustControl (c : Char) : Bool :=
  c.toNat < 0x20 || (0x7F ≤ c.toNat && c.toNat ≤ 0x9F)

/-- Drop leading Rust-whitespace characters (Rust `str::trim_start`). -/
def ltrimChars (l : List Char) : List Char :=
  l.dropWhile isRustWhitespace

/-- Drop trailing Rust-whitespace characters (Rust `str::trim_end`). -/
def rtrimChars (l : List Char) : List Char :=
  (l.reverse.dropWhile isRustWhitespace).reverse

/-- Rust `str::trim`. -/
def rustTrim (s : String) : String :=
  String.mk (rtrimChars (ltrimChars s.data))

/-- A node of the parsed HTML tree, as provided by the external tree engine
(`kuchikiki`): element with tag name, attribute list and children, text node,
or comment node. -/
inductive DomNode where
  | element : String → List (String × String) → List DomNode → DomNode
  | text : String → DomNode
  | comment : String → DomNode

/-- The run configuration, mirroring `HqConfig` in `src/lib.rs`. -/
structure HqConfig where
  selector : String
  base : Option String
  detectBase : Bool
  textOnly : Bool
  ignoreWhitespace : Bool
  prettyPrint : Bool
  removeNodes : List String
  attributes : List String
  compact : Bool

/-- `HqConfig::default()` from `src/lib.rs`. -/
def HqConfig.default : HqConfig :=
  { selector := ":root", base := none, detectBase := false, textOnly := false,
    ignoreWhitespace := false, prettyPrint := false, removeNodes := [],
    attributes := [], compact := false }

/-- The external collaborators consumed by `process_html`: HTML parsing,
selector compilation (returning a node predicate, `none` on syntax error, as
`kuchikiki`'s `select` returns `Err`), `<base>` detection and URL parsing and
link rewriting (the `link` module and the `url` crate; URLs are opaque
strings here), pretty printing, raw markup serialization, and the JSON
parser/serializer (`serde_json`) over an opaque value type `J`. -/
structure HqExt (J : Type) where
  parseHtml : String → DomNode
  parseSelector : String → Option (DomNode → Bool)
  detectBase : DomNode → Option String
  parseUrl : String → Option String
  rewriteLinks : String → DomNode → DomNode
  prettyPrint : DomNode → String
  toHtml : DomNode → String
  jsonParse : String → Option J
  jsonSer : J → String

mutual

/-- This node followed by all of its descendants, in tree order
(`kuchikiki`'s `inclusive_descendants`). -/
def inclusiveDescendants : DomNode → List DomNode
  | .element n a cs => .element n a cs :: inclusiveDescendantsList cs
  | .text s => [.text s]
  | .comment s => [.comment s]

/-- Inclusive descendants of a forest, in tree order. -/
def inclusiveDescendantsList : List DomNode → List DomNode
  | [] => []
  | n :: ns => inclusiveDescendants n ++ inclusiveDescendantsList ns

end

/-- The text contents of all text nodes of the subtree, in tree order
(`node.inclusive_descendants().text_nodes()`). -/
def textNodes (node : DomNode) : List String :=
  (inclusiveDescendants node).filterMap fun n =>
    match n with
    | .text s => some s
    | _ => none

/-- Attribute lookup on an element's attribute list
(`elem_atts.get(attr)`). -/
def lookupAttr (attrs : List (String × String)) (name : String) : Option String :=
  (attrs.find? fun p => p.1 = name).map fun p => p.2

/-- The lines written by the attribute loop of `select_attributes` in
`src/lib.rs`: for each requested attribute, in order, the value followed by a
newline when present, nothing when absent. -/
def attrLines (attrs : List (String × String)) : List String → String
  | [] => ""
  | a :: rest =>
    (match lookupAttr attrs a with
     | some v => v ++ "\n"
     | none => "") ++ attrLines attrs rest

/-- `select_attributes` from `src/lib.rs`: on an element, emit each requested
attribute's value as one line; on a non-element, nothing. -/
def select_attributes (node : DomNode) (attributes : List String) : String :=
  match node with
  | .element _ al _ => attrLines al attributes
  | _ => ""

/-- `serialize_text` from `src/lib.rs`: concatenate all text chunks of the
subtree; with `ignore_whitespace`, drop chunks that trim to empty and append
a newline after every retained chunk. -/
def serialize_text (node : DomNode) (ignoreWhitespace : Bool) : String :=
  (textNodes node).foldl
    (fun result t =>
      if ignoreWhitespace && (rustTrim t).isEmpty then result
      else result ++ t ++ (if ignoreWhitespace then "\n" else "")) ""

mutual

/-- Remove every descendant matching `pred` (the matches of the joined
remove-selector list), together with its subtree: the functional reading of
`target.as_node().detach()` applied to all matches inside the subtree. -/
def pruneNode (pred : DomNode → Bool) : DomNode → DomNode
  | .element n a cs => .element n a (pruneList pred cs)
  | .text s => .text s
  | .comment s => .comment s

/-- Prune a forest: drop matched roots, recurse into the others. -/
def pruneList (pred : DomNode → Bool) : List DomNode → List DomNode
  | [] => []
  | c :: cs =>
    (if pred c then [] else [pruneNode pred c]) ++ pruneList pred cs

end

/-- The pruning step of `process_html`: compile the comma-joined
remove-selector list; on success detach all matches inside the node's
subtree, on a selector-syntax error (`if let Ok(..)` failing) leave the node
untouched. -/
def pruneStep {J : Type} (ext : HqExt J) (removeNodes : List String)
    (node : DomNode) : DomNode :=
  match ext.parseSelector (String.intercalate "," removeNodes) with
  | some pred => pruneNode pred node
  | none => node

/-- Base-URL resolution from `process_html` (`src/lib.rs` lines 71–76):
the `match (&config.base, &config.detect_base)` expression. -/
def resolveBase {J : Type} (ext : HqExt J) (doc : DomNode) (cfg : HqConfig) :
    Option String :=
  match cfg.base, cfg.detectBase with
  | some b, true =>
    match ext.detectBase doc with
    | some u => some u
    | none => ext.parseUrl b
  | some b, false => ext.parseUrl b
  | none, true => ext.detectBase doc
  | none, false => none

/-- The serialization dispatch inside the match loop of `process_html`:
attribute extraction when the attribute list is non-empty, else text-only,
else pretty printing, else raw markup; every mode except attribute
extraction ends with the `writeln!` newline. -/
def serializeNode {J : Type} (ext : HqExt J) (cfg : HqConfig)
    (node : DomNode) : String :=
  if !cfg.attributes.isEmpty then select_attributes node cfg.attributes
  else if cfg.textOnly then serialize_text node cfg.ignoreWhitespace ++ "\n"
  else if cfg.prettyPrint then ext.prettyPrint node ++ "\n"
  else ext.toHtml node ++ "\n"

/-- The body of the per-match loop of `process_html`: prune, rewrite links
when a base URL was resolved, serialize. -/
def perMatch {J : Type} (ext : HqExt J) (cfg : HqConfig)
    (base : Option String) (node : DomNode) : String :=
  let pruned := pruneStep ext cfg.removeNodes node
  let rewritten :=
    match base with
    | some u => ext.rewriteLinks u pruned
    | none => pruned
  serializeNode ext cfg rewritten

/-- Concatenation of the per-element outputs (the `output` buffer written by
the `writeln!` calls). -/
def concatMap {α : Type} (f : α → String) : List α → String
  | [] => ""
  | x :: xs => f x ++ concatMap f xs

/-- The whole match loop of `process_html`: all inclusive descendants of the
document matching the compiled selector, in tree order, each processed by
`perMatch`, with the base URL resolved once before the loop. -/
def runMatches {J : Type} (ext : HqExt J) (cfg : HqConfig) (doc : DomNode)
    (pred : DomNode → Bool) : String :=
  concatMap (perMatch ext cfg (resolveBase ext doc cfg))
    ((inclusiveDescendants doc).filter pred)

/-- One step of the malformed-JSON repair loop of `process_html`
(`src/lib.rs` lines 129–159): given the `(in_string, escape_next)` state and
the next character, the new state and the characters appended to `fixed`. -/
def fixStep : Bool × Bool → Char → (Bool × Bool) × List Char
  | (inString, true), c => ((inString, false), [c])
  | (inString, false), c =>
    if c = '\\' then ((inString, true), [c])
    else if c = '"' then ((!inString, false), [c])
    else if inString && isRustControl c then
      ((inString, false),
        if c = '\n' then ['\\', 'n']
        else if c = '\r' then ['\\', 'r']
        else if c = '\t' then ['\\', 't']
        else [])
    else ((inString, false), [c])

/-- The repair loop folded over a character list. -/
def fixChars : Bool × Bool → List Char → List Char
  | _, [] => []
  | st, c :: cs =>
    (fixStep st c).2 ++ fixChars (fixStep st c).1 cs

/-- The whole repair pass: one scan starting outside any string with no
pending escape. -/
def fixControl (s : String) : String :=
  String.mk (fixChars (false, false) s.data)

/-- Rust `str::split('>')`: the pieces between `>` characters (`n` separators
give `n + 1` pieces). -/
def splitOnGt : List Char → List (List Char)
  | [] => [[]]
  | c :: cs =>
    if c = '>' then [] :: splitOnGt cs
    else
      match splitOnGt cs with
      | p :: ps => (c :: p) :: ps
      | [] => [[c]]

/-- Rust `Vec::join(">")`. -/
def joinGt : List (List Char) → List Char
  | [] => []
  | [p] => p
  | p :: q :: ps => p ++ '>' :: joinGt (q :: ps)

/-- The markup compaction fallback of `process_html` (`src/lib.rs` lines
170–174): split on `>`, strip leading whitespace from each piece, rejoin
with `>`. -/
def markupSplit (s : String) : String :=
  String.mk (joinGt ((splitOnGt s.data).map ltrimChars))

/-- The compaction post-processing of `process_html` (`src/lib.rs` lines
118–176): trim, try a direct JSON parse, on failure repair and reparse, on
success re-serialize compactly, otherwise apply the markup fallback to the
untrimmed text. -/
def compactStep {J : Type} (ext : HqExt J) (result : String) : String :=
  let trimmed := rustTrim result
  match ext.jsonParse trimmed with
  | some v => ext.jsonSer v
  | none =>
    match ext.jsonParse (fixControl trimmed) with
    | some v => ext.jsonSer v
    | none => markupSplit result

/-- `process_html` from `src/lib.rs`: parse the document, resolve the base
URL, fail on a main-selector syntax error, otherwise run the match loop and
optionally compact. -/
def processHtml {J : Type} (ext : HqExt J) (html : String) (cfg : HqConfig) :
    Except String String :=
  match ext.parseSelector cfg.selector with
  | none => Except.error "Failed to parse CSS selector"
  | some pred =>
    let mid := runMatches ext cfg (ext.parseHtml html) pred
    Except.ok (if cfg.compact then compactStep ext mid else mid)

/-! ### Concrete collaborator instances used to witness the theorems

These fixtures instantiate the external collaborators on small plausible
behaviours (a selector engine that compiles `div` or `#a` and rejects
everything else, notably the empty selector list, as CSS requires; a JSON
codec defined on the exact strings that appear in the scenario). -/

/-- A one-element document `<div>x</div>`. -/
def docW : DomNode := .element "div" [] [.text "x"]

/-- The compiled predicate for the selector `div`. -/
def isDiv : DomNode → Bool
  | .element "div" _ _ => true
  | _ => false

/-- Basic collaborator bundle: only `div` compiles as a selector, no base
detection, URL parsing always fails, JSON parsing always fails, raw
serialization yields a fixed multi-line markup. -/
def extW : HqExt Unit :=
  { parseHtml := fun _ => docW,
    parseSelector := fun s => if s = "div" then some isDiv else none,
    detectBase := fun _ => none,
    parseUrl := fun _ => none,
    rewriteLinks := fun _ n => n,
    prettyPrint := fun _ => "P",
    toHtml := fun _ => "<div>\n  <p>x</p>\n</div>",
    jsonParse := fun _ => none,
    jsonSer := fun _ => "" }

/-- A compacting configuration selecting `div`. -/
def cfgWc : HqConfig :=
  { HqConfig.default with selector := "div", compact := true }

/-- A plain configuration selecting `div`. -/
def cfgPlain : HqConfig :=
  { HqConfig.default with selector := "div" }

/-- A JSON codec whose only value serializes to `[1]`. -/
def extW7 : HqExt Unit :=
  { extW with jsonParse := fun s => if s = "[1]" then some () else none,
              jsonSer := fun _ => "[1]" }

/-- Raw serialization produces the JSON text `[2]`; the codec accepts
exactly that text. -/
def extW10 : HqExt Unit :=
  { extW with toHtml := fun _ => "[2]",
              jsonParse := fun s => if s = "[2]" then some () else none,
              jsonSer := fun _ => "[2]" }

/-- Raw serialization produces `["a` newline `b"]`, malformed JSON whose
repair (escaping the in-string newline) the codec accepts. -/
def extW3 : HqExt Unit :=
  { extW with toHtml := fun _ => "[\"a\nb\"]",
              jsonParse := fun s => if s = "[\"a\\nb\"]" then some () else none,
              jsonSer := fun _ => "[3]" }

/-- A document with no `div` element, so the selector `div` matches zero
nodes. -/
def extW8 : HqExt Unit :=
  { extW with parseHtml := fun _ => .element "p" [] [] }

/-- A collaborator whose document base detection succeeds with `D`. -/
def extW5a : HqExt Unit :=
  { extW with detectBase := fun _ => some "D" }

/-- Configuration with an explicit base and base detection requested. -/
def cfgW5a : HqConfig :=
  { HqConfig.default with selector := "div", base := some "B",
                          detectBase := true }

/-- Configuration with only an explicit (unparseable) base. -/
def cfgW5c : HqConfig :=
  { HqConfig.default with selector := "div", base := some "B" }

/-- A document whose root element carries `href="u"`. -/
def extW2 : HqExt Unit :=
  { extW with parseHtml := fun _ => .element "div" [("href", "u")] [] }

/-- Attribute-extraction configuration requesting `href` then a missing
attribute `q`, with the text and pretty flags also set. -/
def cfgW2 : HqConfig :=
  { HqConfig.default with selector := "div", attributes := ["href", "q"] }

/-- Configuration whose remove-selector list holds the syntactically invalid
selector `:::`. -/
def cfgC1 : HqConfig :=
  { HqConfig.default with selector := "div", removeNodes := [":::"] }

/-- The parsed tree of `<div id="a">X<span> Y </span></div>` under HTML5
tree construction: `html` wrapping `head` and `body`, the `div` holding the
text chunk `X` and a `span` holding the text chunk ` Y `. -/
def docC4 : DomNode :=
  .element "html" [] [
    .element "head" [] [],
    .element "body" [] [
      .element "div" [("id", "a")] [
        .text "X",
        .element "span" [] [.text " Y "]]]]

/-- The compiled predicate for the selector `#a`. -/
def isIdA : DomNode → Bool
  | .element _ al _ => lookupAttr al "id" == some "a"
  | _ => false

/-- Collaborators for the C4 scenario: the engine parses the scenario input
to `docC4` and compiles only the selector `#a`. -/
def extC4 : HqExt Unit :=
  { parseHtml := fun _ => docC4,
    parseSelector := fun s => if s = "#a" then some isIdA else none,
    detectBase := fun _ => none,
    parseUrl := fun _ => none,
    rewriteLinks := fun _ n => n,
    prettyPrint := fun _ => "",
    toHtml := fun _ => "",
    jsonParse := fun _ => none,
    jsonSer := fun _ => "" }

/-- The C4 scenario input document. -/
def htmlC4 : String := "<div id=\"a\">X<span> Y </span></div>"

/-- C4 scenario configuration: selector `#a`, text-only mode. -/
def cfgC4 : HqConfig :=
  { HqConfig.default with selector := "#a", textOnly := true }

/-- C4 scenario configuration with `ignore_whitespace` also set. -/
def cfgC4iw : HqConfig :=
  { cfgC4 with ignoreWhitespace := true }

/-! ### Helper lemmas about the compaction primitives -/

theorem splitOnGt_ne_nil (cs : List Char) : splitOnGt cs ≠ [] := by
  induction cs with
  | nil => simp [splitOnGt]
  | cons c cs ih =>
    rw [splitOnGt]
    by_cases h : c = '>'
    · simp [h]
    · rw [if_neg h]
      cases hs : splitOnGt cs <;> simp

theorem mem_splitOnGt_not_gt (cs : List Char) (p : List Char)
    (hp : p ∈ splitOnGt cs) : '>' ∉ p := by
  induction cs generalizing p with
  | nil =>
    rw [splitOnGt, List.mem_singleton] at hp
    subst hp
    simp
  | cons c cs ih =>
    rw [splitOnGt] at hp
    by_cases h : c = '>'
    · rw [if_pos h] at hp
      rcases List.mem_cons.mp hp with h1 | h1
      · subst h1; simp
      · exact ih p h1
    · rw [if_neg h] at hp
      cases hs : splitOnGt cs with
      | nil => exact absurd hs (splitOnGt_ne_nil cs)
      | cons q qs =>
        rw [hs] at hp
        rcases List.mem_cons.mp hp with h1 | h1
        · subst h1
          intro hmem
          rcases List.mem_cons.mp hmem with h2 | h2
          · exact h h2.symm
          · exact ih q (hs ▸ List.mem_cons_self q qs) h2
        · exact ih p (hs ▸ List.mem_cons_of_mem q h1)

theorem splitOnGt_no_gt (p : List Char) (hp : '>' ∉ p) : splitOnGt p = [p] := by
  induction p with
  | nil => rfl
  | cons c cs ih =>
    have hc : ¬ c = '>' := fun h => hp (List.mem_cons.mpr (Or.inl h.symm))
    have hcs : '>' ∉ cs := fun h => hp (List.mem_cons_of_mem c h)
    rw [splitOnGt, if_neg hc, ih hcs]

theorem splitOnGt_append_gt (p rest : List Char) (hp : '>' ∉ p) :
    splitOnGt (p ++ '>' :: rest) = p :: splitOnGt rest := by
  induction p with
  | nil => simp [splitOnGt]
  | cons c cs ih =>
    have hc : ¬ c = '>' := fun h => hp (List.mem_cons.mpr (Or.inl h.symm))
    have hcs : '>' ∉ cs := fun h => hp (List.mem_cons_of_mem c h)
    rw [List.cons_append, splitOnGt, if_neg hc, ih hcs]

theorem splitOnGt_joinGt (ps : List (List Char)) (h0 : ps ≠ [])
    (h1 : ∀ p ∈ ps, '>' ∉ p) : splitOnGt (joinGt ps) = ps := by
  induction ps with
  | nil => exact absurd rfl h0
  | cons p ps ih =>
    cases ps with
    | nil =>
      rw [joinGt]
      exact splitOnGt_no_gt p (h1 p (List.mem_cons_self p []))
    | cons q qs =>
      rw [joinGt, splitOnGt_append_gt _ _ (h1 p (List.mem_cons_self _ _)),
        ih (by simp) fun r hr => h1 r (List.mem_cons_of_mem p hr)]

theorem dropWhile_idem {α : Type} (f : α → Bool) (l : List α) :
    (l.dropWhile f).dropWhile f = l.dropWhile f := by
  induction l with
  | nil => rfl
  | cons c cs ih =>
    by_cases h : f c
    · simp [List.dropWhile_cons, h, ih]
    · simp [List.dropWhile_cons, h]

theorem ltrimChars_idem (l : List Char) : ltrimChars (ltrimChars l) = ltrimChars l :=
  dropWhile_idem isRustWhitespace l

theorem not_gt_ltrimChars (p : List Char) (hp : '>' ∉ p) : '>' ∉ ltrimChars p :=
  fun hm => hp ((List.dropWhile_sublist isRustWhitespace).subset hm)

theorem markupSplit_idem (s : String) :
    markupSplit (markupSplit s) = markupSplit s := by
  show markupSplit (String.mk (joinGt ((splitOnGt s.data).map ltrimChars)))
      = markupSplit s
  rw [markupSplit]
  have hne : (splitOnGt s.data).map ltrimChars ≠ [] := by
    intro h
    exact splitOnGt_ne_nil s.data (List.map_eq_nil_iff.mp h)
  have hng : ∀ p ∈ (splitOnGt s.data).map ltrimChars, '>' ∉ p := by
    intro p hp
    rcases List.mem_map.mp hp with ⟨q, hq, rfl⟩
    exact not_gt_ltrimChars q (mem_splitOnGt_not_gt s.data q hq)
  have hdata : (String.mk (joinGt ((splitOnGt s.data).map ltrimChars))).data
      = joinGt ((splitOnGt s.data).map ltrimChars) := rfl
  rw [hdata, splitOnGt_joinGt _ hne hng, List.map_map]
  have hfun : ltrimChars ∘ ltrimChars = ltrimChars :=
    funext fun l => ltrimChars_idem l
  rw [hfun, markupSplit]

theorem getLast?_rtrimChars (m : List Char) (c : Char)
    (h : (rtrimChars m).getLast? = some c) : isRustWhitespace c = false := by
  rw [rtrimChars, List.getLast?_reverse] at h
  have hd := List.head?_dropWhile_not isRustWhitespace m.reverse
  rw [h] at hd
  exact hd

theorem rustTrim_fixed_getLast (s : String) (h : rustTrim s = s) (c : Char)
    (hc : s.data.getLast? = some c) : isRustWhitespace c = false := by
  have hdata : rtrimChars (ltrimChars s.data) = s.data := congrArg String.data h
  exact getLast?_rtrimChars (ltrimChars s.data) c (by rw [hdata]; exact hc)

/-! ### Claim theorems -/

/-- C6: with the compact flag set, when both the direct and the repaired
JSON parse attempts on the trimmed serializer output fail, the final output
is the serializer text split on every `>`, each piece stripped of its
leading whitespace, rejoined with `>`; each output piece loses only a
whitespace-only prefix (so whitespace not immediately following a `>`, such
as whitespace before a `<` inside text, is untouched); and the scenario
`<div>` newline two-spaces `<p>x</p>` newline `</div>` compacts to
`<div><p>x</p></div>`. -/
theorem claim_C6 {J : Type} (ext : HqExt J) (html : String) (cfg : HqConfig)
    (pred : DomNode → Bool)
    (hsel : ext.parseSelector cfg.selector = some pred)
    (hc : cfg.compact = true)
    (h1 : ext.jsonParse
      (rustTrim (runMatches ext cfg (ext.parseHtml html) pred)) = none)
    (h2 : ext.jsonParse
      (fixControl (rustTrim (runMatches ext cfg (ext.parseHtml html) pred)))
      = none) :
    processHtml ext html cfg
      = Except.ok (markupSplit (runMatches ext cfg (ext.parseHtml html) pred))
    ∧ markupSplit (runMatches ext cfg (ext.parseHtml html) pred)
      = String.mk (joinGt
          ((splitOnGt (runMatches ext cfg (ext.parseHtml html) pred).data).map
            ltrimChars))
    ∧ (∀ s : String, ∀ p ∈ splitOnGt s.data, ∃ w,
        (∀ c ∈ w, isRustWhitespace c = true) ∧ p = w ++ ltrimChars p)
    ∧ markupSplit "<div>\n  <p>x</p>\n</div>" = "<div><p>x</p></div>" := by
  refine ⟨?_, rfl, ?_, by rfl⟩
  · rw [processHtml, hsel]
    simp only [hc, if_true, compactStep, h1, h2]
  · intro s p _
    refine ⟨p.takeWhile isRustWhitespace,
      fun c hc2 => List.mem_takeWhile_imp hc2, ?_⟩
    rw [ltrimChars]
    exact (List.takeWhile_append_dropWhile isRustWhitespace p).symm

/-- C6 witness: a run whose raw serialization is the scenario markup, with
both JSON parses failing, compacts to the tag-tight markup. -/
theorem claim_C6_witness :
    extW.parseSelector cfgWc.selector = some isDiv
    ∧ cfgWc.compact = true
    ∧ extW.jsonParse (rustTrim (runMatches extW cfgWc (extW.parseHtml "h") isDiv)) = none
    ∧ extW.jsonParse (fixControl (rustTrim (runMatches extW cfgWc (extW.parseHtml "h") isDiv))) = none
    ∧ processHtml extW "h" cfgWc = Except.ok "<div><p>x</p></div>" :=
  ⟨rfl, rfl, rfl, rfl,
    ((claim_C6 extW "h" cfgWc isDiv rfl rfl rfl rfl).1).trans (by rfl)⟩

/-- C7: the compaction transformation is idempotent on its own output: a
compactly re-serialized JSON value (one that the codec round-trips and that
carries no surrounding whitespace) compacts to itself, and the markup
fallback's output compacts to itself whenever it is not parseable as
JSON. -/
theorem claim_C7 {J : Type} (ext : HqExt J) :
    (∀ v : J, rustTrim (ext.jsonSer v) = ext.jsonSer v →
      ext.jsonParse (ext.jsonSer v) = some v →
      compactStep ext (ext.jsonSer v) = ext.jsonSer v)
    ∧ (∀ s : String,
        ext.jsonParse (rustTrim (markupSplit s)) = none →
        ext.jsonParse (fixControl (rustTrim (markupSplit s))) = none →
        compactStep ext (markupSplit s) = markupSplit s) := by
  constructor
  · intro v htrim hparse
    rw [compactStep]
    simp only [htrim, hparse]
  · intro s h1 h2
    rw [compactStep]
    simp only [h1, h2]
    exact markupSplit_idem s

/-- C7 witness: the concrete codec output `[1]` compacts to itself, and the
already-tag-tight markup produced from `  <a> b` compacts to itself. -/
theorem claim_C7_witness :
    rustTrim (extW7.jsonSer ()) = extW7.jsonSer ()
    ∧ extW7.jsonParse (extW7.jsonSer ()) = some ()
    ∧ compactStep extW7 (extW7.jsonSer ()) = extW7.jsonSer ()
    ∧ extW.jsonParse (rustTrim (markupSplit "  <a> b")) = none
    ∧ extW.jsonParse (fixControl (rustTrim (markupSplit "  <a> b"))) = none
    ∧ compactStep extW (markupSplit "  <a> b") = markupSplit "  <a> b" :=
  ⟨rfl, rfl, (claim_C7 extW7).1 () rfl rfl, rfl, rfl,
    (claim_C7 extW).2 "  <a> b" rfl rfl⟩

/-- C8: a syntactically valid selector matching zero nodes makes
`process_html` return success with an empty result (no error), for any
document and configuration, provided the JSON collaborator rejects the
empty string (as `serde_json` does). -/
theorem claim_C8 {J : Type} (ext : HqExt J) (html : String) (cfg : HqConfig)
    (pred : DomNode → Bool)
    (hsel : ext.parseSelector cfg.selector = some pred)
    (hzero : (inclusiveDescendants (ext.parseHtml html)).filter pred = [])
    (hjson : ext.jsonParse "" = none) :
    processHtml ext html cfg = Except.ok "" := by
  have hmid : runMatches ext cfg (ext.parseHtml html) pred = "" := by
    rw [runMatches, hzero]
    rfl
  rw [processHtml, hsel]
  simp only [hmid]
  cases hc : cfg.compact
  · simp
  · have hcs : compactStep ext "" = "" := by
      rw [compactStep]
      have ht : rustTrim "" = "" := rfl
      have hf : fixControl "" = "" := rfl
      simp only [ht, hjson, hf]
      rfl
    simp [hcs]

/-- C8 witness: the selector `div` compiles but matches nothing in a
`<p></p>` document; the run succeeds with empty output even with the
compact flag set. -/
theorem claim_C8_witness :
    extW8.parseSelector cfgWc.selector = some isDiv
    ∧ (inclusiveDescendants (extW8.parseHtml "h")).filter isDiv = []
    ∧ extW8.jsonParse "" = none
    ∧ processHtml extW8 "h" cfgWc = Except.ok "" :=
  ⟨rfl, rfl, rfl, claim_C8 extW8 "h" cfgWc isDiv rfl rfl rfl⟩

/-- C10: with the compact flag set, when either JSON parse attempt succeeds
the final output is exactly the compact re-serialization of the parsed
value; given that the serializer emits no surrounding whitespace (as
`serde_json::to_string` does), the output carries no leading or trailing
whitespace — in particular it does not end with a newline: the per-match
line terminators were removed by the trim before parsing and are not
re-added. -/
theorem claim_C10 {J : Type} (ext : HqExt J) (html : String) (cfg : HqConfig)
    (pred : DomNode → Bool) (v : J)
    (hsel : ext.parseSelector cfg.selector = some pred)
    (hc : cfg.compact = true)
    (hparse : ext.jsonParse
        (rustTrim (runMatches ext cfg (ext.parseHtml html) pred)) = some v
      ∨ (ext.jsonParse
          (rustTrim (runMatches ext cfg (ext.parseHtml html) pred)) = none
        ∧ ext.jsonParse
            (fixControl (rustTrim (runMatches ext cfg (ext.parseHtml html) pred)))
          = some v))
    (hser : rustTrim (ext.jsonSer v) = ext.jsonSer v) :
    processHtml ext html cfg = Except.ok (ext.jsonSer v)
    ∧ rustTrim (ext.jsonSer v) = ext.jsonSer v
    ∧ ∀ c, (ext.jsonSer v).data.getLast? = some c →
        isRustWhitespace c = false ∧ c ≠ '\n' := by
  refine ⟨?_, hser, ?_⟩
  · rw [processHtml, hsel]
    simp only [hc, if_true, compactStep]
    rcases hparse with h | ⟨h1, h2⟩
    · simp only [h]
    · simp only [h1, h2]
  · intro c hlast
    have hw := rustTrim_fixed_getLast (ext.jsonSer v) hser c hlast
    refine ⟨hw, fun hcn => ?_⟩
    subst hcn
    simp [isRustWhitespace] at hw

/-- C10 witness: a run whose raw serialization is `[2]` followed by the
`writeln!` newline parses directly after trimming; the compact result `[2]`
has no surrounding whitespace and no trailing newline. -/
theorem claim_C10_witness :
    extW10.parseSelector cfgWc.selector = some isDiv
    ∧ cfgWc.compact = true
    ∧ extW10.jsonParse
        (rustTrim (runMatches extW10 cfgWc (extW10.parseHtml "h") isDiv)) = some ()
    ∧ rustTrim (extW10.jsonSer ()) = extW10.jsonSer ()
    ∧ processHtml extW10 "h" cfgWc = Except.ok "[2]" :=
  ⟨rfl, rfl, rfl, rfl,
    (claim_C10 extW10 "h" cfgWc isDiv () rfl rfl (Or.inl rfl) rfl).1.trans (by rfl)⟩

/-- C3: with the compact flag set, when the direct JSON parse of the trimmed
serializer output fails, `process_html` runs exactly one repair pass over
the trimmed text and reparses: on success the output is the repaired
value's compact re-serialization, otherwise the markup fallback.  The
repair pass is the single character scan `fixChars` from the
`(in_string, escape_next)` start state `(false, false)`, whose step emits,
for an escaped character, that character unchanged; outside a string, every
character unchanged; inside a string, the two-character escapes for raw
newline, carriage return and tab, nothing for any other raw control
character, and every non-control character (whitespace included)
unchanged. -/
theorem claim_C3 {J : Type} (ext : HqExt J) (html : String) (cfg : HqConfig)
    (pred : DomNode → Bool)
    (hsel : ext.parseSelector cfg.selector = some pred)
    (hc : cfg.compact = true)
    (h1 : ext.jsonParse
      (rustTrim (runMatches ext cfg (ext.parseHtml html) pred)) = none) :
    (processHtml ext html cfg = Except.ok
      (match ext.jsonParse
          (fixControl (rustTrim (runMatches ext cfg (ext.parseHtml html) pred))) with
       | some v => ext.jsonSer v
       | none => markupSplit (runMatches ext cfg (ext.parseHtml html) pred)))
    ∧ (∀ s : String, fixControl s = String.mk (fixChars (false, false) s.data))
    ∧ (∀ inS : Bool, ∀ c : Char, fixStep (inS, true) c = ((inS, false), [c]))
    ∧ (∀ c : Char, (fixStep (false, false) c).2 = [c])
    ∧ (fixStep (true, false) '\n').2 = ['\\', 'n']
    ∧ (fixStep (true, false) '\r').2 = ['\\', 'r']
    ∧ (fixStep (true, false) '\t').2 = ['\\', 't']
    ∧ (∀ c : Char, isRustControl c = true → c ≠ '\n' → c ≠ '\r' → c ≠ '\t' →
        (fixStep (true, false) c).2 = [])
    ∧ (∀ c : Char, isRustControl c = false → (fixStep (true, false) c).2 = [c]) := by
  refine ⟨?_, fun _ => rfl, fun _ _ => rfl, ?_, rfl, rfl, rfl, ?_, ?_⟩
  · rw [processHtml, hsel]
    simp only [hc, if_true, compactStep, h1]
  · intro c
    rw [fixStep]
    by_cases hb : c = '\\'
    · rw [if_pos hb]
    · rw [if_neg hb]
      by_cases hq : c = '"'
      · rw [if_pos hq]
      · rw [if_neg hq, if_neg (by simp)]
  · intro c hctrl hn hr ht
    rw [fixStep]
    have hb : ¬ c = '\\' := fun h => by subst h; simp [isRustControl] at hctrl
    have hq : ¬ c = '"' := fun h => by subst h; simp [isRustControl] at hctrl
    rw [if_neg hb, if_neg hq, if_pos (by simp [hctrl]),
      if_neg hn, if_neg hr, if_neg ht]
  · intro c hctrl
    rw [fixStep]
    by_cases hb : c = '\\'
    · rw [if_pos hb]
    · rw [if_neg hb]
      by_cases hq : c = '"'
      · rw [if_pos hq]
      · rw [if_neg hq, if_neg (by simp [hctrl])]

/-- C3 witness: the serializer output `["a` newline `b"]` fails the direct
parse, the repair pass escapes the in-string newline, the repaired text
parses, and the run emits its compact re-serialization. -/
theorem claim_C3_witness :
    extW3.parseSelector cfgWc.selector = some isDiv
    ∧ cfgWc.compact = true
    ∧ extW3.jsonParse
        (rustTrim (runMatches extW3 cfgWc (extW3.parseHtml "h") isDiv)) = none
    ∧ extW3.jsonParse
        (fixControl (rustTrim (runMatches extW3 cfgWc (extW3.parseHtml "h") isDiv)))
      = some ()
    ∧ processHtml extW3 "h" cfgWc = Except.ok "[3]" :=
  ⟨rfl, rfl, rfl, rfl,
    (claim_C3 extW3 "h" cfgWc isDiv rfl rfl rfl).1.trans (by rfl)⟩

/-- Unfolding `processHtml` when the main selector fails to compile. -/
theorem processHtml_none {J : Type} (ext : HqExt J) (html : String)
    (cfg : HqConfig) (hsel : ext.parseSelector cfg.selector = none) :
    processHtml ext html cfg = Except.error "Failed to parse CSS selector" := by
  rw [processHtml, hsel]

/-- Unfolding `processHtml` when the main selector compiles. -/
theorem processHtml_some {J : Type} (ext : HqExt J) (html : String)
    (cfg : HqConfig) (pred : DomNode → Bool)
    (hsel : ext.parseSelector cfg.selector = some pred) :
    processHtml ext html cfg = Except.ok
      (if cfg.compact
       then compactStep ext (runMatches ext cfg (ext.parseHtml html) pred)
       else runMatches ext cfg (ext.parseHtml html) pred) := by
  rw [processHtml, hsel]

/-- C5: base resolution happens once, before the match loop, by the laws of
the source `match`: with an explicit base and detection requested, a
successful detection wins and a failed detection falls back to parsing the
explicit string; with only an unparseable explicit base the run proceeds
with no base; with neither there is no base; and whenever no base was
resolved the whole run is independent of the link rewriter, i.e. link
rewriting is skipped. -/
theorem claim_C5 {J : Type} (ext : HqExt J) (html : String) (cfg : HqConfig) :
    (∀ b u, cfg.base = some b → cfg.detectBase = true →
      ext.detectBase (ext.parseHtml html) = some u →
      resolveBase ext (ext.parseHtml html) cfg = some u)
    ∧ (∀ b, cfg.base = some b → cfg.detectBase = true →
      ext.detectBase (ext.parseHtml html) = none →
      resolveBase ext (ext.parseHtml html) cfg = ext.parseUrl b)
    ∧ (∀ b, cfg.base = some b → cfg.detectBase = false →
      ext.parseUrl b = none →
      resolveBase ext (ext.parseHtml html) cfg = none)
    ∧ (cfg.base = none → cfg.detectBase = false →
      resolveBase ext (ext.parseHtml html) cfg = none)
    ∧ (resolveBase ext (ext.parseHtml html) cfg = none →
      ∀ rwf : String → DomNode → DomNode,
        processHtml { ext with rewriteLinks := rwf } html cfg
          = processHtml ext html cfg) := by
  refine ⟨?_, ?_, ?_, ?_, ?_⟩
  · intro b u hb hd hdet
    rw [resolveBase, hb, hd, hdet]
  · intro b hb hd hdet
    rw [resolveBase, hb, hd, hdet]
  · intro b hb hd hp
    rw [resolveBase, hb, hd]
    exact hp
  · intro hb hd
    rw [resolveBase, hb, hd]
  · intro hnone rwf
    cases hsel : ext.parseSelector cfg.selector with
    | none =>
      rw [processHtml_none { ext with rewriteLinks := rwf } html cfg hsel,
        processHtml_none ext html cfg hsel]
    | some pred =>
      rw [processHtml_some { ext with rewriteLinks := rwf } html cfg pred hsel,
        processHtml_some ext html cfg pred hsel]
      have hb2 : resolveBase { ext with rewriteLinks := rwf }
          (({ ext with rewriteLinks := rwf } : HqExt J).parseHtml html) cfg
          = none := hnone
      have hrm : runMatches { ext with rewriteLinks := rwf } cfg
          (({ ext with rewriteLinks := rwf } : HqExt J).parseHtml html) pred
          = runMatches ext cfg (ext.parseHtml html) pred := by
        rw [runMatches, runMatches, hb2, hnone]
        exact congrArg
          (fun f => concatMap f
            ((inclusiveDescendants (ext.parseHtml html)).filter pred))
          (funext fun n => rfl)
      rw [hrm]
      cases cfg.compact <;> rfl

/-- C5 witness: with explicit base `B` and detection on, a successful
detection yields `D` and a failed detection falls back to parsing `B`; an
unparseable explicit base alone yields no base, as does no base input at
all; and with no base the run is unchanged under replacing the link
rewriter. -/
theorem claim_C5_witness :
    (cfgW5a.base = some "B" ∧ cfgW5a.detectBase = true
      ∧ extW5a.detectBase (extW5a.parseHtml "h") = some "D"
      ∧ resolveBase extW5a (extW5a.parseHtml "h") cfgW5a = some "D")
    ∧ (extW.detectBase (extW.parseHtml "h") = none
      ∧ resolveBase extW (extW.parseHtml "h") cfgW5a = extW.parseUrl "B")
    ∧ (extW.parseUrl "B" = none
      ∧ resolveBase extW (extW.parseHtml "h") cfgW5c = none)
    ∧ (cfgPlain.base = none
      ∧ resolveBase extW (extW.parseHtml "h") cfgPlain = none)
    ∧ processHtml { extW with rewriteLinks := fun u _ => DomNode.text u } "h"
        cfgPlain = processHtml extW "h" cfgPlain :=
  ⟨⟨rfl, rfl, rfl, (claim_C5 extW5a "h" cfgW5a).1 "B" "D" rfl rfl rfl⟩,
   ⟨rfl, (claim_C5 extW "h" cfgW5a).2.1 "B" rfl rfl rfl⟩,
   ⟨rfl, (claim_C5 extW "h" cfgW5c).2.2.1 "B" rfl rfl rfl⟩,
   ⟨rfl, (claim_C5 extW "h" cfgPlain).2.2.2.1 rfl rfl⟩,
   (claim_C5 extW "h" cfgPlain).2.2.2.2 rfl (fun u _ => DomNode.text u)⟩

/-- C9: with an empty remove-selector list the pruning step is a no-op —
the joined selector list is the empty string, which the selector engine
rejects, so no node is detached and every match node flows to link
rewriting and serialization exactly as parsed. -/
theorem claim_C9 {J : Type} (ext : HqExt J) (cfg : HqConfig)
    (h0 : cfg.removeNodes = [])
    (hempty : ext.parseSelector "" = none) :
    (∀ node, pruneStep ext cfg.removeNodes node = node)
    ∧ (∀ doc pred, runMatches ext cfg doc pred
        = concatMap
            (fun n => serializeNode ext cfg
              (match resolveBase ext doc cfg with
               | some u => ext.rewriteLinks u n
               | none => n))
            ((inclusiveDescendants doc).filter pred)) := by
  have hp : ∀ node, pruneStep ext cfg.removeNodes node = node := by
    intro node
    rw [h0, pruneStep]
    have hj : String.intercalate "," ([] : List String) = "" := rfl
    rw [hj, hempty]
  refine ⟨hp, ?_⟩
  intro doc pred
  rw [runMatches]
  refine congrArg
    (fun f => concatMap f ((inclusiveDescendants doc).filter pred))
    (funext fun n => ?_)
  show serializeNode ext cfg
      (match resolveBase ext doc cfg with
       | some u => ext.rewriteLinks u (pruneStep ext cfg.removeNodes n)
       | none => pruneStep ext cfg.removeNodes n)
    = serializeNode ext cfg
      (match resolveBase ext doc cfg with
       | some u => ext.rewriteLinks u n
       | none => n)
  rw [hp n]

/-- C9 witness: with the default empty remove list and an engine rejecting
the empty selector string, pruning leaves the document node unchanged. -/
theorem claim_C9_witness :
    cfgPlain.removeNodes = []
    ∧ extW.parseSelector "" = none
    ∧ pruneStep extW cfgPlain.removeNodes docW = docW :=
  ⟨rfl, rfl, (claim_C9 extW cfgPlain rfl rfl).1 docW⟩

/-- C2: with a non-empty attribute list, every matched node is serialized in
attribute-extraction mode regardless of the `text_only` and `pretty_print`
flags (and of the pretty/raw serializers themselves): the run's output is
unchanged by flipping those flags or replacing those collaborators; the
per-node serialization is exactly `select_attributes`; and per configured
attribute, in configured order, a present attribute contributes its value
as one line while a missing attribute contributes nothing. -/
theorem claim_C2 {J : Type} (ext : HqExt J) (html : String) (cfg : HqConfig)
    (h : cfg.attributes ≠ []) :
    (∀ pp th : DomNode → String, ∀ tb pb : Bool,
      processHtml { ext with prettyPrint := pp, toHtml := th } html
        { cfg with textOnly := tb, prettyPrint := pb }
      = processHtml ext html cfg)
    ∧ (∀ node, serializeNode ext cfg node = select_attributes node cfg.attributes)
    ∧ (∀ al a rest v, lookupAttr al a = some v →
        attrLines al (a :: rest) = v ++ "\n" ++ attrLines al rest)
    ∧ (∀ al a rest, lookupAttr al a = none →
        attrLines al (a :: rest) = attrLines al rest) := by
  obtain ⟨a0, as0, hl⟩ : ∃ a0 as0, cfg.attributes = a0 :: as0 := by
    cases hl : cfg.attributes with
    | nil => exact absurd hl h
    | cons a0 as0 => exact ⟨a0, as0, rfl⟩
  have hser : ∀ node, serializeNode ext cfg node
      = select_attributes node cfg.attributes := by
    intro node
    rw [serializeNode, hl]
    rfl
  refine ⟨?_, hser, ?_, ?_⟩
  · intro pp th tb pb
    cases hsel : ext.parseSelector cfg.selector with
    | none =>
      rw [processHtml_none { ext with prettyPrint := pp, toHtml := th } html
          { cfg with textOnly := tb, prettyPrint := pb } hsel,
        processHtml_none ext html cfg hsel]
    | some pred =>
      rw [processHtml_some { ext with prettyPrint := pp, toHtml := th } html
          { cfg with textOnly := tb, prettyPrint := pb } pred hsel,
        processHtml_some ext html cfg pred hsel]
      have hser2 : ∀ node,
          serializeNode { ext with prettyPrint := pp, toHtml := th }
            { cfg with textOnly := tb, prettyPrint := pb } node
          = select_attributes node cfg.attributes := by
        intro node
        rw [serializeNode]
        have hl2 : ({ cfg with textOnly := tb, prettyPrint := pb } : HqConfig).attributes
            = a0 :: as0 := hl
        rw [hl2]
        rfl
      have hrm : runMatches { ext with prettyPrint := pp, toHtml := th }
          { cfg with textOnly := tb, prettyPrint := pb }
          (({ ext with prettyPrint := pp, toHtml := th } : HqExt J).parseHtml html)
          pred
          = runMatches ext cfg (ext.parseHtml html) pred := by
        rw [runMatches, runMatches]
        refine (congrArg
          (fun f => concatMap f
            ((inclusiveDescendants (ext.parseHtml html)).filter pred))
          (funext fun n => ?_)).trans rfl
        show serializeNode { ext with prettyPrint := pp, toHtml := th }
            { cfg with textOnly := tb, prettyPrint := pb }
            (match resolveBase ext (ext.parseHtml html) cfg with
             | some u => ext.rewriteLinks u (pruneStep ext cfg.removeNodes n)
             | none => pruneStep ext cfg.removeNodes n)
          = serializeNode ext cfg
            (match resolveBase ext (ext.parseHtml html) cfg with
             | some u => ext.rewriteLinks u (pruneStep ext cfg.removeNodes n)
             | none => pruneStep ext cfg.removeNodes n)
        rw [hser2, hser]
      rw [hrm]
      cases cfg.compact <;> rfl
  · intro al a rest v hv
    rw [attrLines, hv]
  · intro al a rest hv
    rw [attrLines, hv]
    show "" ++ attrLines al rest = attrLines al rest
    exact (String.empty_append (attrLines al rest))

/-- C2 witness: with attributes `href` then a missing `q` requested, the run
is unchanged by setting both the text and pretty flags and replacing the
pretty/raw serializers, and the output is the single line `u`. -/
theorem claim_C2_witness :
    cfgW2.attributes ≠ []
    ∧ processHtml { extW2 with prettyPrint := fun _ => "PP", toHtml := fun _ => "TH" }
        "h" { cfgW2 with textOnly := true, prettyPrint := true }
      = processHtml extW2 "h" cfgW2
    ∧ processHtml extW2 "h" cfgW2 = Except.ok "u\n" :=
  ⟨by simp [cfgW2, HqConfig.default],
   (claim_C2 extW2 "h" cfgW2 (by simp [cfgW2, HqConfig.default])).1
     (fun _ => "PP") (fun _ => "TH") true true,
   rfl⟩

/-- C1 counterexample: a configuration whose remove-selector list holds the
syntactically invalid selector `:::` (rejected by the engine, as witnessed
by `parseSelector` returning `none` on the joined list) does not make
`process_html` error out: the run completes and returns the full, unpruned
serialization — contradicting the claim that an invalid remove selector is
reported to the caller and aborts the run with no output. -/
theorem claim_C1_counterexample :
    cfgC1.removeNodes = [":::"]
    ∧ extW.parseSelector (String.intercalate "," cfgC1.removeNodes) = none
    ∧ processHtml extW "h" cfgC1 = Except.ok "<div>\n  <p>x</p>\n</div>\n" :=
  ⟨rfl, rfl, rfl⟩

/-- C1 amended: a syntactically invalid remove-selector list is silently
ignored — the `if let Ok` guard fails, pruning becomes a no-op for every
match, and the run completes normally (returning `Ok`) whenever the main
selector itself compiles. -/
theorem claim_C1_amended {J : Type} (ext : HqExt J) (html : String)
    (cfg : HqConfig) (pred : DomNode → Bool)
    (hbad : ext.parseSelector (String.intercalate "," cfg.removeNodes) = none)
    (hsel : ext.parseSelector cfg.selector = some pred) :
    (∀ node, pruneStep ext cfg.removeNodes node = node)
    ∧ processHtml ext html cfg = Except.ok
        (if cfg.compact
         then compactStep ext (runMatches ext cfg (ext.parseHtml html) pred)
         else runMatches ext cfg (ext.parseHtml html) pred) := by
  constructor
  · intro node
    rw [pruneStep, hbad]
  · exact processHtml_some ext html cfg pred hsel

/-- C1 amended witness: with the invalid remove list `[":::"]` the pruning
step leaves the document unchanged and the run returns `Ok`. -/
theorem claim_C1_amended_witness :
    extW.parseSelector (String.intercalate "," cfgC1.removeNodes) = none
    ∧ extW.parseSelector cfgC1.selector = some isDiv
    ∧ pruneStep extW cfgC1.removeNodes docW = docW :=
  ⟨rfl, rfl, (claim_C1_amended extW "h" cfgC1 isDiv rfl rfl).1 docW⟩

/-- C4 counterexample: on the scenario input with `text_only` and
`ignore_whitespace` both set, `process_html` emits `X` newline ` Y ` newline
followed by the per-match `writeln!` newline — `"X\n Y \n\n"` — not the
`"X\n Y \n"` the claim states. -/
theorem claim_C4_counterexample :
    processHtml extC4 htmlC4 cfgC4iw = Except.ok "X\n Y \n\n"
    ∧ processHtml extC4 htmlC4 cfgC4iw ≠ Except.ok "X\n Y \n" := by
  refine ⟨rfl, fun hcontra => ?_⟩
  have hok : (Except.ok "X\n Y \n\n" : Except String String)
      = Except.ok "X\n Y \n" :=
    (rfl : processHtml extC4 htmlC4 cfgC4iw
        = Except.ok "X\n Y \n\n").symm.trans hcontra
  have hs : "X\n Y \n\n" = "X\n Y \n" := Except.ok.inj hok
  exact absurd hs (by decide)

/-- C4 amended: on the input `<div id="a">X<span> Y </span></div>` with
selector `#a` and `text_only` set: with `ignore_whitespace` false the output
is the separator-free concatenation `X Y ` followed by the terminating
newline; with `ignore_whitespace` true every retained chunk is followed by a
newline and the per-match terminator is still appended, yielding
`X\n Y \n\n`. -/
theorem claim_C4_amended :
    processHtml extC4 htmlC4 cfgC4 = Except.ok "X Y \n"
    ∧ processHtml extC4 htmlC4 cfgC4iw = Except.ok "X\n Y \n\n" :=
  ⟨rfl, rfl⟩
